import Mathlib

/-!
Verification of the rainfall simulation module (rwgen/rainfall/simulation.py).

Shallow-embedding conventions used throughout this file:
* NumPy floating-point arithmetic is modelled exactly over the rationals.
* One-dimensional NumPy arrays become values of type `List ℚ`; the
  two-dimensional discretisation buffer of `discretise_spatial` (timesteps by
  locations) is modelled column by column, since the source only ever touches
  it through whole-column views.
* The in-place accumulation `discrete_rainfall[timestep] += v` is modelled by
  `npAddAt`.  The source guards only `timestep < discrete_rainfall.shape[0]`
  (line 656), and NumPy resolves a negative index `i` of an array of length
  `n` to `i + n`; both behaviours are reproduced.  An index below `-n` raises
  in NumPy and is unchecked in numba nopython mode; it is modelled as a no-op
  and no claim below depends on it.
* Tables of raincells are modelled as lists of tuples; a tuple
  `(a, e, w)` stands for one row of the parallel arrays
  `raincell_arrival_times`, `raincell_end_times`, `raincell_intensities`.
-/

/-- NumPy-style accumulation `arr[i] += v` under the guard
`i < arr.shape[0]` of simulation.py line 656: a negative `i` with
`-arr.length ≤ i` resolves to `i + arr.length` (NumPy negative indexing);
an index that resolves outside the array leaves it unchanged (out of the
modelled range, see the header comment). -/
def npAddAt (l : List ℚ) (i : ℤ) (v : ℚ) : List ℚ :=
  let n : ℤ := l.length
  let j : ℤ := if i < 0 then i + n else i
  if i < n then
    if 0 ≤ j ∧ j < n then l.set j.toNat (l.getD j.toNat 0 + v) else l
  else l

/-- Body of the per-timestep loop of `discretise_point` (lines 650-654):
the overlap length between the raincell interval (relative to the period
start) and the timestep interval. -/
def timestep_coverage (timestep_length rc_arrival_time rc_end_time : ℚ)
    (timestep : ℤ) : ℚ :=
  min rc_end_time ((timestep + 1) * timestep_length) -
    max rc_arrival_time (timestep * timestep_length)

/-- Helper capturing the loop
`for timestep in range(rc_arrival_timestep, rc_end_timestep+1)` of
`discretise_point`: starting at index `a`, perform `m` guarded accumulations
`arr[a+k] += w (a+k)`. -/
def addLoop (a : ℤ) (w : ℤ → ℚ) (m : ℕ) (arr : List ℚ) : List ℚ :=
  (List.range m).foldl
    (fun acc (k : ℕ) => npAddAt acc (a + (k : ℤ)) (w (a + (k : ℤ)))) arr

/-- One iteration of the outer raincell loop of `discretise_point`
(lines 637-657) for the raincell `cell = (arrival, end, intensity)`. -/
def discretise_cell (period_start_time timestep_length : ℚ) (cell : ℚ × ℚ × ℚ)
    (discrete_rainfall : List ℚ) : List ℚ :=
  let rc_arrival_time := cell.1 - period_start_time
  let rc_end_time := cell.2.1 - period_start_time
  let rc_intensity := cell.2.2
  let rc_arrival_timestep : ℤ := ⌊rc_arrival_time / timestep_length⌋
  let rc_end_timestep : ℤ := ⌊rc_end_time / timestep_length⌋
  (List.range (rc_end_timestep + 1 - rc_arrival_timestep).toNat).foldl
    (fun acc (k : ℕ) => npAddAt acc (rc_arrival_timestep + (k : ℤ))
      (rc_intensity * timestep_coverage timestep_length rc_arrival_time rc_end_time
        (rc_arrival_timestep + (k : ℤ))))
    discrete_rainfall

/-- The point discretisation kernel `discretise_point`
(simulation.py lines 628-657): zero-fill the output array, then accumulate
`intensity * overlap` for every raincell and every covering timestep. -/
def discretise_point (period_start_time timestep_length : ℚ)
    (raincells : List (ℚ × ℚ × ℚ)) (discrete_rainfall : List ℚ) : List ℚ :=
  raincells.foldl
    (fun arr cell => discretise_cell period_start_time timestep_length cell arr)
    (List.replicate discrete_rainfall.length 0)

/-- One row of the spatial raincell table handed to `discretise_spatial`
(columns of the generator dataframe after the km-to-m rescaling). -/
structure SpatialRaincell where
  raincell_arrival : ℚ
  raincell_end : ℚ
  raincell_intensity : ℚ
  raincell_x : ℚ
  raincell_y : ℚ
  raincell_radii : ℚ
deriving DecidableEq

/-- The spatial mask of `discretise_spatial` lines 676-677:
`sqrt((x - cx)^2 + (y - cy)^2) <= radius`.  Over the rationals the
square-root comparison is expressed equivalently as
`0 ≤ radius ∧ (x - cx)^2 + (y - cy)^2 ≤ radius^2` (for a nonnegative
left-hand side, `sqrt d ≤ r` holds iff `r` is nonnegative and `d ≤ r^2`). -/
def spatial_mask (x y : ℚ) (c : SpatialRaincell) : Bool :=
  decide (0 ≤ c.raincell_radii ∧
    (x - c.raincell_x) ^ 2 + (y - c.raincell_y) ^ 2 ≤ c.raincell_radii ^ 2)

/-- The spatial discretisation kernel `discretise_spatial`
(simulation.py lines 660-684), modelled column by column: each location
`(easting, northing, phi)` gets the point discretisation of the raincells
whose circle covers it (the column view `discrete_rainfall[:, yi]` of length
`nt`, zero-filled by `discretise_point` itself), scaled by its phi value
(line 684, `discrete_rainfall[:, yi] *= point_phi[idx]`). -/
def discretise_spatial (period_start_time timestep_length : ℚ)
    (raincells : List SpatialRaincell) (nt : ℕ)
    (locations : List (ℚ × ℚ × ℚ)) : List (List ℚ) :=
  locations.map (fun loc =>
    let masked := (raincells.filter (spatial_mask loc.1 loc.2.1)).map
      (fun c => (c.raincell_arrival, c.raincell_end, c.raincell_intensity))
    let column := discretise_point period_start_time timestep_length masked
      (List.replicate nt 0)
    column.map (fun v => v * loc.2.2))

/-- NumPy semantics of `np.random.default_rng(seed_sequence)` as used at
simulation.py lines 440, 472 and 479: the generator state is a pure function
of the SeedSequence object (`SeedSequence.generate_state` is deterministic
and does not mutate the sequence, and the source never calls `spawn`), so
rebuilding the generator restores the same initial state.  Generator states
are modelled as natural numbers. -/
def np_default_rng (seed_sequence : ℕ) : ℕ := seed_sequence

/-- The random stream handed to the raincell generator for one realisation:
`simulate_realisation` receives the shared `seed_sequence` (line 83) and
builds `np.random.default_rng(seed_sequence)` (lines 440 and 479); the
realisation id never enters the construction. -/
def realisation_rng (seed_sequence : ℕ) (_realisation_id : ℕ) : ℕ :=
  np_default_rng seed_sequence

/-- Sizing-loop state `(block_size, block_id, rng)` after line 440-442 of
`simulate_realisation`: `block_size = min(number_of_years, 1000)`,
`block_id = 0`, `rng = np.random.default_rng(seed_sequence)`. -/
def sizing_init (number_of_years seed_sequence : ℕ) : ℕ × ℕ × ℕ :=
  (min number_of_years 1000, 0, np_default_rng seed_sequence)

/-- One iteration of the sizing loop body (lines 447-474), with the
generation-plus-allocation attempt abstracted by the oracle `fails`, a
function of the current block size (a MemoryError depends on how much the
attempted block asks for).  On failure: halve the block size
(`int(np.floor(block_size / 2))` is natural division by 2), reset the block
counter to zero and reset the rng from the seed sequence.  On success:
advance the block counter; the generator call consumed randomness, modelled
by stepping the rng state. -/
def sizing_step (fails : ℕ → Bool) (seed_sequence : ℕ) (s : ℕ × ℕ × ℕ) :
    ℕ × ℕ × ℕ :=
  if fails s.1 then (s.1 / 2, 0, np_default_rng seed_sequence)
  else (s.1, s.2.1 + 1, s.2.2 + 1)

/-- Fuel-indexed run of the sizing `while block_id * block_size <
number_of_years` loop (lines 443-474); returns the settled block size when
the loop exits, `none` if the fuel is exhausted first (so a result of `none`
for every fuel means the loop never terminates). -/
def sizing_run (number_of_years : ℕ) (fails : ℕ → Bool) (seed_sequence : ℕ) :
    ℕ → ℕ × ℕ × ℕ → Option ℕ
  | 0, _ => none
  | fuel + 1, s =>
    if s.2.1 * s.1 < number_of_years then
      sizing_run number_of_years fails seed_sequence fuel
        (sizing_step fails seed_sequence s)
    else some s.1

/-- Capacity oracle for the 900-year scenario of claim C4: the attempts at
block sizes 900, 450 and 225 raise MemoryError, the attempts at 112 fit. -/
def scenario_fails (block_size : ℕ) : Bool := decide (200 < block_size)

/-- Years of simulated months handed to the generator by each pass of the
simulation loop (lines 481-509): the loop runs while
`block_id * block_size < number_of_years` and block `k` receives the slice
of `12 * block_size` month lengths starting at month `12 * k * block_size`,
hence `min block_size (number_of_years - k * block_size)` years. -/
def simulation_block_years (number_of_years block_size : ℕ) : List ℕ :=
  if block_size = 0 then []
  else
    (List.range ((number_of_years + block_size - 1) / block_size)).map
      (fun k => min block_size (number_of_years - k * block_size))

/-- Truncating dot product of two parallel lists (the numerator
`sum_i values_i * weights_i` of a NumPy weighted average). -/
def dotp : List ℚ → List ℚ → ℚ
  | x :: xs, w :: ws => x * w + dotp xs ws
  | _, _ => 0

/-- The entries of `values` standing at positions where `weights` is
nonzero (used to state that zero-weight points contribute nothing to a
weighted mean). -/
def dropZeroWeight : List ℚ → List ℚ → List ℚ
  | v :: vs, w :: ws =>
    if w = 0 then dropZeroWeight vs ws else v :: dropZeroWeight vs ws
  | _, _ => []

/-- The catchment-average computation of `discretise_by_point` lines
605-609: `np.average(discrete_rainfall, axis=1, weights=w)` over the grid
buffer, one weighted mean per timestep row.  NumPy raises
ZeroDivisionError exactly when the weights sum to zero (modelled as
`none`); otherwise each row becomes `dot(row, w) / sum(w)`. -/
def catchment_discrete_rainfall (grid_discrete_rainfall : List (List ℚ))
    (weights : List ℚ) : Option (List ℚ) :=
  if weights.sum = 0 then none
  else some (grid_discrete_rainfall.map (fun row => dotp row weights / weights.sum))

/-- Grid descriptor: corner coordinates, row and column counts and cell
size, as described for the external grid collaborator. -/
structure GridSpec where
  xllcorner : ℚ
  yllcorner : ℚ
  ncols : ℕ
  nrows : ℕ
  cellsize : ℚ
deriving DecidableEq

/-- Modelled from the spec: `utils.grid_limits` is code of this repository
that is not under src/; the spec describes the grid descriptor as corner
coordinates, cell size and row/column counts whose extent encloses the
requested grid, so its limits are the corner and the corner plus the
column/row counts times the cell size. -/
def grid_limits (g : GridSpec) : ℚ × ℚ × ℚ × ℚ :=
  (g.xllcorner, g.yllcorner,
    g.xllcorner + (g.ncols : ℚ) * g.cellsize,
    g.yllcorner + (g.nrows : ℚ) * g.cellsize)

/-- Modelled from the spec: `utils.round_down` is code of this repository
that is not under src/; the spec says minima are rounded outward (floor) to
a multiple of the cell size. -/
def round_down (value cell_size : ℚ) : ℚ := ⌊value / cell_size⌋ * cell_size

/-- Modelled from the spec: `utils.round_up` is code of this repository
that is not under src/; the spec says maxima are rounded outward (ceiling)
to a multiple of the cell size. -/
def round_up (value cell_size : ℚ) : ℚ := ⌈value / cell_size⌉ * cell_size

/-- `identify_domain_bounds` (simulation.py lines 95-121).  The variables
`xmin, ymin, xmax, ymax` are assigned only inside the
`if points is not None` branch; with `points = None` the rounding at lines
117-120 reads an unbound local and the call raises (modelled as `none`),
even when a grid was supplied, whose limits are computed at line 101 but
never assigned to the bound variables.  An empty point table also fails,
since `np.min` of an empty array raises. -/
def identify_domain_bounds (grid : Option GridSpec) (cell_size : ℚ)
    (points : Option (List (ℚ × ℚ))) : Option (ℚ × ℚ × ℚ × ℚ) :=
  match points with
  | none => none
  | some [] => none
  | some (p :: ps) =>
    let points_xmin := (ps.map Prod.fst).foldl min p.1
    let points_ymin := (ps.map Prod.snd).foldl min p.2
    let points_xmax := (ps.map Prod.fst).foldl max p.1
    let points_ymax := (ps.map Prod.snd).foldl max p.2
    match grid with
    | some g =>
      let gl := grid_limits g
      some (round_down (min points_xmin gl.1) cell_size,
        round_down (min points_ymin gl.2.1) cell_size,
        round_up (max points_xmax gl.2.2.1) cell_size,
        round_up (max points_ymax gl.2.2.2) cell_size)
    | none =>
      some (round_down points_xmin cell_size, round_down points_ymin cell_size,
        round_up points_xmax cell_size, round_up points_ymax cell_size)

/-- `np.arange(start, stop, step)` for a positive step: the values
`start + k * step` for `k` below `⌈(stop - start) / step⌉`. -/
def np_arange (start stop step : ℚ) : List ℚ :=
  (List.range (⌈(stop - start) / step⌉).toNat).map (fun k => start + (k : ℚ) * step)

/-- Variogram bin edges of `make_phi_interpolator` (lines 260-264) as a
function of the maximum pairwise distance: `interval = max_distance / 7`,
`bin_edges = np.arange(0.0, max_distance + 0.1, interval)`, then
`bin_edges[-1] = max_distance + 0.1` replaces the last edge. -/
def phi_bin_edges (max_distance : ℚ) : List ℚ :=
  let distance_bins : ℚ := 7
  let interval := max_distance / distance_bins
  let bin_edges := np_arange 0 (max_distance + 1 / 10) interval
  bin_edges.set (bin_edges.length - 1) (max_distance + 1 / 10)

/-- The empty-bin drop of lines 275-276, `bin_centres = bin_centres[counts > 0]`:
keep the entries of `xs` whose paired count is positive. -/
def filter_by_counts (xs : List ℚ) (counts : List ℕ) : List ℚ :=
  ((xs.zip counts).filter (fun p => decide (0 < p.2))).map Prod.fst

/-- Claim C2 (code bug): the intended values of the end-to-end non-spatial
path.  The point kernel itself, applied to the single raincell with
arrival 0, end 3/2, intensity 2 at timestep length 1, puts 2 in timestep 0,
1 in timestep 1 and 0 in every later timestep.  The month loop as written
never reaches it: `discretise_by_point` (lines 576-579) passes seven
positional arguments, including the unused `end_time`, to the six-parameter
`discretise_point` (lines 629-632), so the call raises a TypeError. -/
theorem discretise_point_scenario_values :
    discretise_point 0 1 [((0 : ℚ), 3 / 2, 2)] (List.replicate 5 0) =
      [2, 1, 0, 0, 0] := by with_unfolding_all rfl

/-- Claim C10 (code bug): a raincell admitted by the temporal mask of lines
544-549 whose arrival precedes the period start is not dropped before the
period: with period start 10, timestep length 1 and the raincell
(arrival 19/2, end 21/2, intensity 1), the kernel computes arrival timestep
-1, the guard of line 656 only checks the upper bound, and the NumPy
negative index deposits the pre-period half of the raincell at the final
timestep 23 of the 24-entry array. -/
theorem discretise_point_negative_arrival_wraps :
    (discretise_point 10 1 [((19 / 2 : ℚ), 21 / 2, 1)]
        (List.replicate 24 0)).getD 23 0 = 1 / 2 ∧
    (discretise_point 10 1 [((19 / 2 : ℚ), 21 / 2, 1)]
        (List.replicate 24 0)).getD 0 0 = 1 / 2 := by
  constructor <;> with_unfolding_all rfl

/-- Claim C4 counterexample: for a 900-year run whose first three
generation-plus-allocation attempts raise MemoryError, sizing does not
settle on block size 250: the candidate starts at
`min(number_of_years, 1000) = 900` (line 441), so the halving sequence is
900, 450, 225, 112 and the loop settles on 112. -/
theorem sizing_900_settles_at_112_not_250 :
    sizing_run 900 scenario_fails 5 30 (sizing_init 900 5) = some 112 ∧
    sizing_run 900 scenario_fails 5 30 (sizing_init 900 5) ≠ some 250 := by
  constructor <;> with_unfolding_all decide

/-- Claim C4 as amended: the candidate block size starts at
`min(number_of_years, 1000)`, each capacity failure halves it and resets the
block counter and the random source to the initial state derived from the
seed sequence; for a 900-year run whose first three attempts fail, sizing
settles on block size 112 and the run proceeds in 9 blocks covering
112 years each and 4 years in the last. -/
theorem sizing_900_amended :
    sizing_init 900 5 = (900, 0, 5) ∧
    sizing_step scenario_fails 5 (900, 7, 99) = (450, 0, 5) ∧
    sizing_run 900 scenario_fails 5 30 (sizing_init 900 5) = some 112 ∧
    simulation_block_years 900 112 =
      [112, 112, 112, 112, 112, 112, 112, 112, 4] := by
  refine ⟨rfl, by with_unfolding_all rfl, by with_unfolding_all rfl,
    by with_unfolding_all rfl⟩

/-- Helper for claim C5: under an oracle that always raises MemoryError,
every sizing state whose block counter is zero loops forever (for a
positive number of years the guard `block_id * block_size < number_of_years`
reads `0 < number_of_years` and each failing iteration returns to a state
with block counter zero), so no amount of fuel reaches an exit. -/
theorem sizing_run_allfail_none (years : ℕ) (hy : 1 ≤ years) :
    ∀ (fuel bs r : ℕ),
      sizing_run years (fun _ => true) 0 fuel (bs, 0, r) = none := by
  intro fuel
  induction fuel with
  | zero => intro bs r; rfl
  | succ n ih =>
    intro bs r
    have hpos : 0 < years := hy
    simpa [sizing_run, sizing_step, hpos] using ih (bs / 2) (np_default_rng 0)

/-- Claim C5 (code bug): the sizing loop does not terminate for every
sequence of memory-failure outcomes.  With one simulated year and every
attempt raising MemoryError the block size is halved to zero and the loop
condition `block_id * block_size < number_of_years` stays true forever;
there is no fatal failure in the source for the halved-to-zero case, so the
run never reaches an exit whatever fuel it is given. -/
theorem sizing_loop_never_terminates_on_repeated_failure :
    ∀ (fuel bs r : ℕ),
      sizing_run 1 (fun _ => true) 0 fuel (bs, 0, r) = none :=
  sizing_run_allfail_none 1 le_rfl

/-- Claim C6 (code bug): the random stream supplied to the raincell
generator is the same for every realisation id, because every realisation
rebuilds `np.random.default_rng` from the one shared, never-spawned
SeedSequence; only the intra-realisation half of the claim holds: the
sizing probe starts from the same initial stream that the real simulation
later resets to. -/
theorem realisation_streams_identical :
    (∀ seed_sequence r1 r2 : ℕ,
      realisation_rng seed_sequence r1 = realisation_rng seed_sequence r2) ∧
    (∀ years seed_sequence : ℕ,
      (sizing_init years seed_sequence).2.2 = np_default_rng seed_sequence) :=
  ⟨fun _ _ _ => rfl, fun _ _ => rfl⟩

/-- Claim C8 (code bug): with a grid descriptor (corner (0,0), 10 by 10
cells of size 100) and no point table the computation fails (the grid
limits computed at line 101 are never assigned to the variables rounded at
lines 117-120, so the call raises), although the claim says any one of grid
or points suffices; with a point table alone it returns the outward-rounded
bounds as claimed. -/
theorem identify_domain_bounds_grid_only_fails :
    identify_domain_bounds (some ⟨0, 0, 10, 10, 100⟩) 100 none = none ∧
    identify_domain_bounds none 100 (some [(45, 160), (255, 20)]) =
      some (0, 0, 300, 200) := by
  constructor
  · rfl
  · with_unfolding_all rfl

/-- Claim C9 counterexample: for a calibration set of two distinct points
at Euclidean distance 7/20 (for instance (0,0) and (7/20, 0)), the maximum
pairwise distance is 7/20 and `np.arange(0, 7/20 + 1/10, (7/20)/7)`
produces 9 edges, hence 8 bins, not the 7 equal-width bins the claim
states. -/
theorem phi_bin_edges_small_domain_not_seven :
    (phi_bin_edges (7 / 20)).length - 1 = 8 ∧
    (phi_bin_edges (7 / 20)).length - 1 ≠ 7 := by
  constructor <;> with_unfolding_all decide

/-- Sum of a list after a single in-range set: the old entry is exchanged
for the new value. -/
theorem sum_set_getD (a : ℚ) : ∀ (l : List ℚ) (i : ℕ), i < l.length →
    (l.set i a).sum = l.sum - l.getD i 0 + a := by
  intro l
  induction l with
  | nil => intro i h; simp at h
  | cons x xs ih =>
    intro i h
    cases i with
    | zero => simp; ring
    | succ n =>
      simp only [List.set_cons_succ, List.sum_cons, List.getD_cons_succ]
      rw [ih n (by simpa using h)]
      ring

/-- Setting one position leaves the other positions unchanged. -/
theorem getD_set_ne (a : ℚ) : ∀ (l : List ℚ) (i j : ℕ), i ≠ j →
    (l.set i a).getD j 0 = l.getD j 0 := by
  intro l
  induction l with
  | nil => intro i j _; simp
  | cons x xs ih =>
    intro i j hij
    cases i with
    | zero =>
      cases j with
      | zero => exact absurd rfl hij
      | succ m => simp
    | succ n =>
      cases j with
      | zero => simp
      | succ m =>
        simp only [List.set_cons_succ, List.getD_cons_succ]
        exact ih n m (by omega)

/-- Reading back an in-range set position returns the new value. -/
theorem getD_set_self (a : ℚ) : ∀ (l : List ℚ) (i : ℕ), i < l.length →
    (l.set i a).getD i 0 = a := by
  intro l
  induction l with
  | nil => intro i h; simp at h
  | cons x xs ih =>
    intro i h
    cases i with
    | zero => simp
    | succ n =>
      simp only [List.set_cons_succ, List.getD_cons_succ]
      exact ih n (by simpa using h)

/-- Every entry of an all-zero array reads zero. -/
theorem getD_replicate_zero : ∀ (n j : ℕ), (List.replicate n (0 : ℚ)).getD j 0 = 0 := by
  intro n
  induction n with
  | zero => intro j; simp
  | succ m ih =>
    intro j
    cases j with
    | zero => simp [List.replicate]
    | succ k => rw [List.replicate_succ, List.getD_cons_succ]; exact ih k

/-- The guarded accumulation never changes the array length. -/
theorem npAddAt_length (l : List ℚ) (i : ℤ) (v : ℚ) :
    (npAddAt l i v).length = l.length := by
  simp only [npAddAt]
  repeat' split
  all_goals simp

/-- For an in-range nonnegative index, the accumulation adds its value to
the array sum. -/
theorem npAddAt_sum (l : List ℚ) (i : ℤ) (v : ℚ) (h0 : 0 ≤ i)
    (h1 : i < (l.length : ℤ)) : (npAddAt l i v).sum = l.sum + v := by
  have hneg : ¬i < 0 := not_lt.mpr h0
  simp only [npAddAt, hneg, if_false]
  rw [if_pos h1, if_pos ⟨h0, h1⟩, sum_set_getD _ l i.toNat (by omega)]
  ring

/-- For an in-range nonnegative index, accumulation leaves other entries
unchanged. -/
theorem npAddAt_getD_ne (l : List ℚ) (i : ℤ) (v : ℚ) (j : ℕ) (h0 : 0 ≤ i)
    (hne : (j : ℤ) ≠ i) : (npAddAt l i v).getD j 0 = l.getD j 0 := by
  have hneg : ¬i < 0 := not_lt.mpr h0
  simp only [npAddAt, hneg, if_false]
  split
  · split
    · exact getD_set_ne _ l i.toNat j (by omega)
    · rfl
  · rfl

/-- For an in-range nonnegative index, accumulation adds its value at that
index. -/
theorem npAddAt_getD_self (l : List ℚ) (i : ℤ) (v : ℚ) (h0 : 0 ≤ i)
    (h1 : i < (l.length : ℤ)) :
    (npAddAt l i v).getD i.toNat 0 = l.getD i.toNat 0 + v := by
  have hneg : ¬i < 0 := not_lt.mpr h0
  simp only [npAddAt, hneg, if_false]
  rw [if_pos h1, if_pos ⟨h0, h1⟩]
  exact getD_set_self _ l i.toNat (by omega)

/-- Unfolding one iteration of the accumulation loop. -/
theorem addLoop_succ (a : ℤ) (w : ℤ → ℚ) (m : ℕ) (arr : List ℚ) :
    addLoop a w (m + 1) arr =
      npAddAt (addLoop a w m arr) (a + (m : ℤ)) (w (a + (m : ℤ))) := by
  simp only [addLoop]
  rw [List.range_succ, List.foldl_append]
  rfl

/-- The accumulation loop never changes the array length. -/
theorem addLoop_length (a : ℤ) (w : ℤ → ℚ) : ∀ (m : ℕ) (arr : List ℚ),
    (addLoop a w m arr).length = arr.length := by
  intro m
  induction m with
  | zero => intro arr; rfl
  | succ n ih => intro arr; rw [addLoop_succ, npAddAt_length, ih]

/-- When every visited index is inside the array, the loop adds the sum of
its per-index values to the array sum. -/
theorem addLoop_sum (a : ℤ) (w : ℤ → ℚ) : ∀ (m : ℕ) (arr : List ℚ),
    0 ≤ a → a + (m : ℤ) ≤ (arr.length : ℤ) →
    (addLoop a w m arr).sum = arr.sum + ∑ k ∈ Finset.range m, w (a + (k : ℤ)) := by
  intro m
  induction m with
  | zero => intro arr _ _; simp [addLoop]
  | succ n ih =>
    intro arr h0 hm
    rw [addLoop_succ, npAddAt_sum _ _ _ (by omega)
        (by rw [addLoop_length]; push_cast at hm ⊢; omega),
      ih arr h0 (by push_cast at hm ⊢; omega), Finset.sum_range_succ]
    ring

/-- Entries whose index the loop never visits are unchanged. -/
theorem addLoop_getD_not_hit (a : ℤ) (w : ℤ → ℚ) : ∀ (m : ℕ) (arr : List ℚ) (j : ℕ),
    0 ≤ a → (∀ k : ℕ, k < m → (j : ℤ) ≠ a + (k : ℤ)) →
    (addLoop a w m arr).getD j 0 = arr.getD j 0 := by
  intro m
  induction m with
  | zero => intro arr j _ _; rfl
  | succ n ih =>
    intro arr j h0 hj
    rw [addLoop_succ, npAddAt_getD_ne _ _ _ _ (by omega) (hj n (by omega)),
      ih arr j h0 (fun k hk => hj k (by omega))]

/-- A visited in-range index receives exactly its own accumulation. -/
theorem addLoop_getD_hit (a : ℤ) (w : ℤ → ℚ) : ∀ (m : ℕ) (arr : List ℚ) (k0 : ℕ),
    0 ≤ a → k0 < m → a + (k0 : ℤ) < (arr.length : ℤ) →
    (addLoop a w m arr).getD (a + (k0 : ℤ)).toNat 0 =
      arr.getD (a + (k0 : ℤ)).toNat 0 + w (a + (k0 : ℤ)) := by
  intro m
  induction m with
  | zero => intro arr k0 _ hk _; omega
  | succ n ih =>
    intro arr k0 h0 hk hlen
    rcases Nat.lt_or_ge k0 n with hlt | hge
    · rw [addLoop_succ, npAddAt_getD_ne _ _ _ _ (by omega) (by
        rw [Int.toNat_of_nonneg (by omega)]; omega)]
      exact ih arr k0 h0 hlt hlen
    · have hk0 : k0 = n := by omega
      subst hk0
      rw [addLoop_succ, npAddAt_getD_self _ _ _ (by omega)
        (by rw [addLoop_length]; exact hlen)]
      rw [addLoop_getD_not_hit a w k0 arr ((a + (k0 : ℤ)).toNat) h0 (fun k hkn => by
        rw [Int.toNat_of_nonneg (by omega)]; omega)]

/-- Conservation of depth for one raincell: over the covering timesteps
`⌊arrT/L⌋ .. ⌊endT/L⌋` the overlap lengths telescope to the raincell
duration. -/
theorem coverage_sum (L arrT endT : ℚ) (hL : 0 < L) (hae : arrT ≤ endT) :
    ∑ k ∈ Finset.range (⌊endT / L⌋ + 1 - ⌊arrT / L⌋).toNat,
      timestep_coverage L arrT endT (⌊arrT / L⌋ + (k : ℤ)) = endT - arrT := by
  set a := ⌊arrT / L⌋ with ha
  set b := ⌊endT / L⌋ with hb
  have hab : a ≤ b := Int.floor_le_floor ((div_le_div_right hL).mpr hae)
  have haL : (a : ℚ) * L ≤ arrT := by
    have h := Int.floor_le (arrT / L)
    rw [← ha] at h
    rwa [← le_div_iff hL]
  have harrlt : arrT < ((a : ℚ) + 1) * L := by
    have h := Int.lt_floor_add_one (arrT / L)
    rw [← ha] at h
    rw [div_lt_iff hL] at h
    exact_mod_cast h
  have hbL : (b : ℚ) * L ≤ endT := by
    have h := Int.floor_le (endT / L)
    rw [← hb] at h
    rwa [← le_div_iff hL]
  have hendlt : endT < ((b : ℚ) + 1) * L := by
    have h := Int.lt_floor_add_one (endT / L)
    rw [← hb] at h
    rw [div_lt_iff hL] at h
    exact_mod_cast h
  have hmZ : (((b + 1 - a).toNat : ℤ)) = b + 1 - a := Int.toNat_of_nonneg (by omega)
  rw [Finset.sum_congr rfl (fun k hk => ?_), Finset.sum_range_sub
    (fun k => min endT (max arrT (((a : ℚ) + (k : ℚ)) * L)))]
  · have hmq : (((b + 1 - a).toNat : ℕ) : ℚ) = (b : ℚ) + 1 - (a : ℚ) := by
      exact_mod_cast congrArg (fun z : ℤ => (z : ℚ)) hmZ
    rw [hmq]
    have h1 : max arrT (((a : ℚ) + ((b : ℚ) + 1 - (a : ℚ))) * L) = ((b : ℚ) + 1) * L := by
      rw [max_eq_right]
      · ring_nf
      · calc arrT ≤ endT := hae
          _ ≤ ((b : ℚ) + 1) * L := hendlt.le
          _ = ((a : ℚ) + ((b : ℚ) + 1 - (a : ℚ))) * L := by ring
    have h0 : max arrT (((a : ℚ) + ((0 : ℕ) : ℚ)) * L) = arrT := by
      rw [max_eq_left]
      push_cast
      simpa using haL
    rw [h1, h0, min_eq_right hae, min_eq_left (by ring_nf; linarith [hendlt])]
  · rw [Finset.mem_range] at hk
    have hkb : a + (k : ℤ) ≤ b := by omega
    have hc1 : arrT ≤ ((a : ℚ) + ((k : ℚ) + 1)) * L := by
      have hk0 : (0 : ℚ) ≤ (k : ℚ) := Nat.cast_nonneg k
      nlinarith [harrlt, hL]
    have hc2 : ((a : ℚ) + (k : ℚ)) * L ≤ endT := by
      have : ((a : ℚ) + (k : ℚ)) ≤ (b : ℚ) := by exact_mod_cast hkb
      calc ((a : ℚ) + (k : ℚ)) * L ≤ (b : ℚ) * L :=
            mul_le_mul_of_nonneg_right this hL.le
        _ ≤ endT := hbL
    have hterm : timestep_coverage L arrT endT (a + (k : ℤ)) =
        min endT (((a : ℚ) + ((k : ℚ) + 1)) * L) - max arrT (((a : ℚ) + (k : ℚ)) * L) := by
      unfold timestep_coverage
      push_cast
      ring_nf
    rw [hterm]
    have hgk1 : min endT (max arrT (((a : ℚ) + (((k + 1 : ℕ)) : ℚ)) * L)) =
        min endT (((a : ℚ) + ((k : ℚ) + 1)) * L) := by
      push_cast
      rw [max_eq_right (by linarith [hc1])]
    have hgk : min endT (max arrT (((a : ℚ) + (k : ℚ)) * L)) =
        max arrT (((a : ℚ) + (k : ℚ)) * L) := by
      rw [min_eq_right (max_le hae hc2)]
    rw [hgk1, hgk]

/-- The per-raincell loop of `discretise_point` is an accumulation loop
starting at the arrival timestep over the covering timestep range. -/
theorem discretise_cell_eq (p L : ℚ) (c : ℚ × ℚ × ℚ) (arr : List ℚ) :
    discretise_cell p L c arr =
      addLoop ⌊(c.1 - p) / L⌋
        (fun t => c.2.2 * timestep_coverage L (c.1 - p) (c.2.1 - p) t)
        (⌊(c.2.1 - p) / L⌋ + 1 - ⌊(c.1 - p) / L⌋).toNat arr := rfl

/-- Discretising one raincell never changes the array length. -/
theorem discretise_cell_length (p L : ℚ) (c : ℚ × ℚ × ℚ) (arr : List ℚ) :
    (discretise_cell p L c arr).length = arr.length := by
  rw [discretise_cell_eq]
  exact addLoop_length _ _ _ _

/-- One raincell that arrives at or after the period start and whose
covering timesteps fit the array adds exactly intensity times duration to
the array sum. -/
theorem discretise_cell_sum (p L : ℚ) (hL : 0 < L) (c : ℚ × ℚ × ℚ) (arr : List ℚ)
    (h1 : p ≤ c.1) (h2 : c.1 ≤ c.2.1)
    (h3 : ⌊(c.2.1 - p) / L⌋ < (arr.length : ℤ)) :
    (discretise_cell p L c arr).sum = arr.sum + c.2.2 * (c.2.1 - c.1) := by
  rw [discretise_cell_eq]
  have ha0 : 0 ≤ ⌊(c.1 - p) / L⌋ :=
    Int.floor_nonneg.mpr (div_nonneg (by linarith) hL.le)
  have hab : ⌊(c.1 - p) / L⌋ ≤ ⌊(c.2.1 - p) / L⌋ :=
    Int.floor_le_floor ((div_le_div_iff_of_pos_right hL).mpr (by linarith))
  rw [addLoop_sum _ _ _ _ ha0 (by omega)]
  rw [← Finset.mul_sum, coverage_sum L (c.1 - p) (c.2.1 - p) hL (by linarith)]
  ring_nf

/-- Folding the per-raincell step over a list of well-placed raincells adds
the total of intensity times duration to the array sum. -/
theorem discretise_point_fold_sum (p L : ℚ) (hL : 0 < L) :
    ∀ (cells : List (ℚ × ℚ × ℚ)) (arr : List ℚ),
      (∀ c ∈ cells, p ≤ c.1 ∧ c.1 ≤ c.2.1 ∧ ⌊(c.2.1 - p) / L⌋ < (arr.length : ℤ)) →
      (cells.foldl (fun a c => discretise_cell p L c a) arr).sum =
        arr.sum + (cells.map (fun c => c.2.2 * (c.2.1 - c.1))).sum := by
  intro cells
  induction cells with
  | nil => intro arr _; simp
  | cons c cs ih =>
    intro arr h
    have hc := h c (List.mem_cons_self c cs)
    have hcs : ∀ x ∈ cs, p ≤ x.1 ∧ x.1 ≤ x.2.1 ∧
        ⌊(x.2.1 - p) / L⌋ < (((discretise_cell p L c arr).length : ℤ)) := by
      intro x hx
      rw [discretise_cell_length]
      exact h x (List.mem_cons_of_mem c hx)
    simp only [List.foldl_cons]
    rw [ih _ hcs, discretise_cell_sum p L hL c arr hc.1 hc.2.1 hc.2.2]
    simp only [List.map_cons, List.sum_cons]
    ring

/-- A single raincell contained in timestep `t` contributes exactly
intensity times duration to that timestep. -/
theorem discretise_point_single_getD (p L : ℚ) (hL : 0 < L) (init : List ℚ)
    (aT eT i : ℚ) (t : ℕ) (ht : t < init.length)
    (h1 : p + (t : ℚ) * L ≤ aT) (h2 : aT < p + ((t : ℚ) + 1) * L)
    (h3 : aT ≤ eT) (h4 : eT ≤ p + ((t : ℚ) + 1) * L) :
    (discretise_point p L [(aT, eT, i)] init).getD t 0 = i * (eT - aT) := by
  have hfa : ⌊(aT - p) / L⌋ = (t : ℤ) := by
    rw [Int.floor_eq_iff]
    constructor
    · rw [le_div_iff₀ hL]
      push_cast
      linarith
    · rw [div_lt_iff₀ hL]
      push_cast
      linarith
  have hfb : (t : ℤ) ≤ ⌊(eT - p) / L⌋ := by
    rw [← hfa]
    exact Int.floor_le_floor ((div_le_div_iff_of_pos_right hL).mpr (by linarith))
  have hstep : discretise_point p L [(aT, eT, i)] init =
      discretise_cell p L (aT, eT, i) (List.replicate init.length 0) := rfl
  rw [hstep, discretise_cell_eq]
  have hm : (0 : ℕ) < (⌊(eT - p) / L⌋ + 1 - ⌊(aT - p) / L⌋).toNat := by omega
  have hhit := addLoop_getD_hit ⌊(aT - p) / L⌋
    (fun s => i * timestep_coverage L (aT - p) (eT - p) s)
    (⌊(eT - p) / L⌋ + 1 - ⌊(aT - p) / L⌋).toNat
    (List.replicate init.length 0) 0 (by omega) hm
    (by simp only [List.length_replicate]; push_cast; omega)
  have hidx : ((⌊(aT - p) / L⌋ + ((0 : ℕ) : ℤ)).toNat) = t := by omega
  rw [hidx] at hhit
  rw [hhit, getD_replicate_zero, zero_add]
  have hcov : timestep_coverage L (aT - p) (eT - p) (⌊(aT - p) / L⌋ + ((0 : ℕ) : ℤ)) =
      eT - aT := by
    unfold timestep_coverage
    rw [hfa]
    push_cast
    rw [min_eq_left (by push_cast; linarith), max_eq_left (by push_cast; linarith)]
    ring
  simp only [hcov]

/-- Claim C1: for raincells of nonnegative intensity arriving at or after
the period start whose covering timesteps all fit the output array, the
point discretisation kernel conserves depth: the output array sums to the
total of intensity times duration over the raincells; and a single
raincell contained in one timestep `t` contributes exactly intensity times
duration to entry `t`, whatever the timestep length. -/
theorem discretise_point_conserves_depth
    (period_start_time timestep_length : ℚ) (hL : 0 < timestep_length)
    (raincells : List (ℚ × ℚ × ℚ)) (init : List ℚ)
    (hcells : ∀ c ∈ raincells, 0 ≤ c.2.2 ∧ period_start_time ≤ c.1 ∧
      c.1 ≤ c.2.1 ∧
      ⌊(c.2.1 - period_start_time) / timestep_length⌋ < (init.length : ℤ)) :
    (discretise_point period_start_time timestep_length raincells init).sum =
      (raincells.map (fun c => c.2.2 * (c.2.1 - c.1))).sum ∧
    ∀ (aT eT i : ℚ) (t : ℕ), 0 ≤ i → t < init.length →
      period_start_time + (t : ℚ) * timestep_length ≤ aT →
      aT < period_start_time + ((t : ℚ) + 1) * timestep_length →
      aT ≤ eT → eT ≤ period_start_time + ((t : ℚ) + 1) * timestep_length →
      (discretise_point period_start_time timestep_length [(aT, eT, i)] init).getD t 0 =
        i * (eT - aT) := by
  constructor
  · unfold discretise_point
    rw [discretise_point_fold_sum period_start_time timestep_length hL raincells
      (List.replicate init.length 0)
      (by simpa only [List.length_replicate] using fun c hc => (hcells c hc).2)]
    simp
  · intro aT eT i t _ ht h1 h2 h3 h4
    exact discretise_point_single_getD period_start_time timestep_length hL init
      aT eT i t ht h1 h2 h3 h4

/-- Claim C1 witness: the conservation theorem applied to the concrete
raincell (arrival 0, end 3/2, intensity 2) on a 5-timestep array of unit
steps (sum 3 = 2 times 3/2), and the single-timestep part applied to the
raincell (1/4, 3/4, intensity 2) contained in timestep 0 (entry 1). -/
theorem discretise_point_conserves_depth_witness :
    (discretise_point 0 1 [((0 : ℚ), 3 / 2, 2)] (List.replicate 5 0)).sum = 3 ∧
    (discretise_point 0 1 [((1 / 4 : ℚ), 3 / 4, 2)] (List.replicate 5 0)).getD 0 0 = 1 := by
  have h := discretise_point_conserves_depth 0 1 (by norm_num)
    [((0 : ℚ), 3 / 2, 2)] (List.replicate 5 0) (by
      intro c hc
      rw [List.mem_singleton] at hc
      subst hc
      refine ⟨by norm_num, by norm_num, by norm_num, ?_⟩
      simp only [List.length_replicate]
      norm_num)
  constructor
  · rw [h.1]
    norm_num
  · have h2 := h.2 (1 / 4) (3 / 4) 2 0 (by norm_num) (by simp) (by norm_num)
      (by norm_num) (by norm_num) (by norm_num)
    rw [h2]
    norm_num

/-- Claim C3: at a location with phi equal to 1 covered by exactly one
raincell circle (every other raincell circle missing it, so the filtered
list is that single raincell), the spatial discretisation column equals
point discretisation of that raincell alone: membership is binary by the
radius test and the column is scaled by phi after accumulation. -/
theorem discretise_spatial_degenerates_to_point
    (period_start_time timestep_length : ℚ) (raincells : List SpatialRaincell)
    (nt : ℕ) (locations : List (ℚ × ℚ × ℚ)) (idx : ℕ) (x y : ℚ)
    (c0 : SpatialRaincell)
    (hloc : locations.get? idx = some (x, y, 1))
    (hact : raincells.filter (spatial_mask x y) = [c0]) :
    (discretise_spatial period_start_time timestep_length raincells nt
        locations).get? idx =
      some (discretise_point period_start_time timestep_length
        [(c0.raincell_arrival, c0.raincell_end, c0.raincell_intensity)]
        (List.replicate nt 0)) := by
  unfold discretise_spatial
  rw [List.get?_map, hloc]
  simp only [Option.map_some', Option.some.injEq]
  simp only [hact, List.map_cons, List.map_nil, mul_one]
  exact List.map_id _

/-- Claim C3 witness: two raincells, the first centred on the location
(0,0) with radius 1 (distance 0), the second centred at (5,0) with radius 1
(distance 5), phi equal to 1: the spatial column is the point
discretisation of the first raincell alone. -/
theorem discretise_spatial_degenerates_to_point_witness :
    (discretise_spatial 0 1
        [⟨0, 3 / 2, 2, 0, 0, 1⟩, ⟨0, 1, 1, 5, 0, 1⟩] 3 [(0, 0, 1)]).get? 0 =
      some (discretise_point 0 1 [((0 : ℚ), 3 / 2, 2)] (List.replicate 3 0)) :=
  discretise_spatial_degenerates_to_point 0 1
    [⟨0, 3 / 2, 2, 0, 0, 1⟩, ⟨0, 1, 1, 5, 0, 1⟩] 3 [(0, 0, 1)] 0 0 0
    ⟨0, 3 / 2, 2, 0, 0, 1⟩ rfl (by with_unfolding_all rfl)

/-- Dropping the zero entries of a weight list does not change its sum. -/
theorem dropZeroWeight_self_sum : ∀ (ws : List ℚ),
    (dropZeroWeight ws ws).sum = ws.sum := by
  intro ws
  induction ws with
  | nil => rfl
  | cons w rest ih =>
    by_cases hw : w = 0
    · subst hw
      simp [dropZeroWeight, ih]
    · simp [dropZeroWeight, hw, ih]

/-- Zero-weight positions contribute nothing to the dot product: dropping
them from both lists preserves it. -/
theorem dotp_dropZeroWeight : ∀ (vs ws : List ℚ), vs.length = ws.length →
    dotp vs ws = dotp (dropZeroWeight vs ws) (dropZeroWeight ws ws) := by
  intro vs
  induction vs with
  | nil =>
    intro ws h
    cases ws with
    | nil => rfl
    | cons w rest => simp at h
  | cons v rest ih =>
    intro ws h
    cases ws with
    | nil => simp at h
    | cons w wrest =>
      by_cases hw : w = 0
      · subst hw
        simp [dotp, dropZeroWeight, ih wrest (by simpa using h)]
      · simp [dotp, dropZeroWeight, hw, ih wrest (by simpa using h)]

/-- Claim C7: with nonnegative weights aligned to the grid rows, the
catchment average errors exactly when the total weight is zero; dropping
the zero-weight grid points changes nothing; and on success every timestep
row becomes the weighted mean of the discretised values. -/
theorem catchment_average_weighted_mean
    (rows : List (List ℚ)) (weights : List ℚ)
    (hw : ∀ w ∈ weights, 0 ≤ w)
    (hlen : ∀ row ∈ rows, row.length = weights.length) :
    (catchment_discrete_rainfall rows weights = none ↔ weights.sum = 0) ∧
    catchment_discrete_rainfall rows weights =
      catchment_discrete_rainfall
        (rows.map (fun row => dropZeroWeight row weights))
        (dropZeroWeight weights weights) ∧
    (weights.sum ≠ 0 →
      catchment_discrete_rainfall rows weights =
        some (rows.map (fun row => dotp row weights / weights.sum))) := by
  refine ⟨?_, ?_, ?_⟩
  · unfold catchment_discrete_rainfall
    by_cases h : weights.sum = 0 <;> simp [h]
  · unfold catchment_discrete_rainfall
    rw [dropZeroWeight_self_sum]
    by_cases h : weights.sum = 0
    · simp [h]
    · rw [if_neg h, if_neg h, List.map_map]
      refine congrArg some (List.map_congr_left ?_)
      intro row hrow
      simp only [Function.comp_apply]
      rw [dotp_dropZeroWeight row weights (hlen row hrow)]
  · intro h
    unfold catchment_discrete_rainfall
    rw [if_neg h]

/-- Claim C7 witness: rows [[1,2],[3,4]] with weights [1,0]: no error (sum
1), the zero-weight point drops out, and the averages are [1,3]. -/
theorem catchment_average_weighted_mean_witness :
    catchment_discrete_rainfall [[1, 2], [3, 4]] [1, 0] =
      catchment_discrete_rainfall [[1], [3]] [1] := by
  have h := (catchment_average_weighted_mean [[1, 2], [3, 4]] [1, 0]
    (by intro w hw; simp at hw; rcases hw with rfl | rfl <;> norm_num)
    (by intro row hrow; simp at hrow; rcases hrow with rfl | rfl <;> simp)).2.1
  rw [h]
  with_unfolding_all rfl

/-- Claim C9 as amended: when the maximum pairwise distance is at least
7/10 (in the coordinate unit, as for any metre-scale calibration network),
the binning yields exactly 8 edges, hence 7 intervals of equal width
max/7 spanning [0, max], with only the last edge replaced by the
outward-nudged max + 1/10; and every bin surviving the empty-bin drop has a
positive pair count.  (For max below 7/10 the arange produces more than 8
edges, see the counterexample.) -/
theorem phi_bin_edges_amended (max_distance : ℚ) (h : 7 / 10 ≤ max_distance) :
    phi_bin_edges max_distance =
      [0, max_distance / 7, 2 * (max_distance / 7), 3 * (max_distance / 7),
        4 * (max_distance / 7), 5 * (max_distance / 7), 6 * (max_distance / 7),
        max_distance + 1 / 10] ∧
    ∀ (bin_centres : List ℚ) (counts : List ℕ) (c : ℚ),
      c ∈ filter_by_counts bin_centres counts →
      ∃ p ∈ bin_centres.zip counts, p.1 = c ∧ 0 < p.2 := by
  constructor
  · have hpos : 0 < max_distance := by linarith
    have hdiv : (max_distance + 1 / 10 - 0) / (max_distance / 7) =
        7 / (10 * max_distance) + 7 := by
      field_simp
      ring
    have h3 : ⌈7 / (10 * max_distance)⌉ = 1 := by
      rw [Int.ceil_eq_iff]
      constructor
      · have hq : (0 : ℚ) < 7 / (10 * max_distance) := by positivity
        push_cast
        linarith
      · push_cast
        rw [div_le_one (by positivity)]
        linarith
    have hceil : ⌈(max_distance + 1 / 10 - 0) / (max_distance / 7)⌉ = 8 := by
      rw [hdiv]
      calc ⌈7 / (10 * max_distance) + 7⌉
          = ⌈7 / (10 * max_distance) + ((7 : ℤ) : ℚ)⌉ := by norm_num
        _ = ⌈7 / (10 * max_distance)⌉ + 7 := Int.ceil_add_int _ 7
        _ = 8 := by rw [h3]; norm_num
    have hrange : List.range (Int.toNat 8) = [0, 1, 2, 3, 4, 5, 6, 7] := by decide
    simp only [phi_bin_edges, np_arange]
    rw [hceil, hrange]
    norm_num [List.set]
  · intro bin_centres counts c hc
    unfold filter_by_counts at hc
    rcases List.mem_map.1 hc with ⟨p, hp, rfl⟩
    rcases List.mem_filter.1 hp with ⟨hpz, hppos⟩
    exact ⟨p, hpz, rfl, by simpa using hppos⟩

/-- Claim C9 amended witness: at maximum distance 7 the edges are the
multiples of 1 up to 6 followed by the nudged 7 + 1/10. -/
theorem phi_bin_edges_amended_witness :
    phi_bin_edges 7 = [0, 1, 2, 3, 4, 5, 6, 71 / 10] := by
  have h := (phi_bin_edges_amended 7 (by norm_num)).1
  rw [h]
  norm_num
